import Mathlib

/-!
Verification of the pepeunit Go client's connectivity-resilience layer and
update orchestrator, as a shallow embedding in Lean 4.

The embedding follows `mqtt_client.go` (PepeunitMQTTClient), `client.go`
(PepeunitClient.handleUpdate / UpdateBinaryFromURL), the SchemaManager
(FindTopicByUnitNode and friends) and the AES-GCM helper
(aesGcmCipher.encode / decode).  Stateful Go code becomes explicit state
passing; the paho token API (Wait/WaitTimeout/Error) becomes an outcome
oracle supplied as a parameter; fallible code returns Except/Option.
-/

namespace Pepeunit

/-! ## Subscription journal (mqtt_client.go)

The journal is the Go map `subscriptions map[string]byte`; we model it as a
duplicate-free list of topic strings.  `SubscribeTopics` runs
`c.subscriptions[topic] = 1` for each topic of its argument before any
network attempt; `UnsubscribeTopics` runs `delete(c.subscriptions, topic)`
likewise; the ConnectionLostHandler only sets `connected = false` and the
OnConnectHandler only sets `connected = true` (and spawns `resubscribeAll`,
which reads the journal without writing it). -/

/-- Go `c.subscriptions[topic] = 1`: map insert (no duplicate keys). -/
def insertTopic (j : List String) (t : String) : List String :=
  if t ∈ j then j else j ++ [t]

/-- The insertion loop of `SubscribeTopics` (mqtt_client.go lines 271-275). -/
def insertTopics (j : List String) (ts : List String) : List String :=
  ts.foldl insertTopic j

/-- Go `delete(c.subscriptions, topic)`. -/
def removeTopic (j : List String) (t : String) : List String :=
  j.filter (fun x => x ≠ t)

/-- The deletion loop of `UnsubscribeTopics` (mqtt_client.go lines 315-319). -/
def removeTopics (j : List String) (ts : List String) : List String :=
  ts.foldl removeTopic j

/-- The journal-relevant state of `PepeunitMQTTClient`. -/
structure MQTTState where
  connected : Bool
  subscriptions : List String
  deriving Repr, DecidableEq

/-- Fresh client state, from `NewPepeunitMQTTClient`. -/
def mqttInit : MQTTState := { connected := false, subscriptions := [] }

/-- The events that touch `connected` or `subscriptions`:  the two public
calls, the ConnectionLostHandler, and the OnConnectHandler (fired when a
connect or reconnect attempt succeeds). -/
inductive MEvent where
  | subscribeCall (ts : List String)
  | unsubscribeCall (ts : List String)
  | connectionLost
  | connectSuccess
  deriving Repr, DecidableEq

/-- Whether an event is one of the two journal-mutating calls. -/
def MEvent.isJournalOp : MEvent → Bool
  | .subscribeCall _ => true
  | .unsubscribeCall _ => true
  | .connectionLost => false
  | .connectSuccess => false

/-- One step of the journal/connection state, read off the Go source:
`SubscribeTopics` inserts its whole argument into the journal before any
network attempt (and an empty argument returns early, leaving the journal
unchanged, which coincides with inserting nothing); `UnsubscribeTopics`
deletes its whole argument likewise; the ConnectionLostHandler body is
`c.connected = false` plus a log line; the OnConnectHandler body is
`c.connected = true` plus a log line and `go c.resubscribeAll()`. -/
def mqttStep (s : MQTTState) (e : MEvent) : MQTTState :=
  match e with
  | .subscribeCall ts => { s with subscriptions := insertTopics s.subscriptions ts }
  | .unsubscribeCall ts => { s with subscriptions := removeTopics s.subscriptions ts }
  | .connectionLost => { s with connected := false }
  | .connectSuccess => { s with connected := true }

/-- Run a sequence of events. -/
def mqttRun (s : MQTTState) (es : List MEvent) : MQTTState :=
  es.foldl mqttStep s

/-- Net desired membership of topic `t` after a sequence of events, starting
from accumulator `p`: a subscribe containing `t` adds it, an unsubscribe
containing `t` removes it, connection events change nothing. -/
def netMemberP (t : String) : Prop → List MEvent → Prop
  | p, [] => p
  | p, .subscribeCall ts :: es => netMemberP t (p ∨ t ∈ ts) es
  | p, .unsubscribeCall ts :: es => netMemberP t (p ∧ t ∉ ts) es
  | p, .connectionLost :: es => netMemberP t p es
  | p, .connectSuccess :: es => netMemberP t p es

theorem mem_insertTopic {j : List String} {t a : String} :
    t ∈ insertTopic j a ↔ t ∈ j ∨ t = a := by
  unfold insertTopic
  split
  · constructor
    · exact fun h => Or.inl h
    · rintro (h | rfl)
      · exact h
      · assumption
  · simp [List.mem_append]

theorem mem_insertTopics {ts : List String} :
    ∀ {j : List String} {t : String}, t ∈ insertTopics j ts ↔ t ∈ j ∨ t ∈ ts := by
  induction ts with
  | nil => intro j t; simp [insertTopics]
  | cons a ts ih =>
    intro j t
    show t ∈ insertTopics (insertTopic j a) ts ↔ _
    rw [ih, mem_insertTopic]
    simp [List.mem_cons]
    tauto

theorem mem_removeTopic {j : List String} {t a : String} :
    t ∈ removeTopic j a ↔ t ∈ j ∧ t ≠ a := by
  simp [removeTopic]

theorem mem_removeTopics {ts : List String} :
    ∀ {j : List String} {t : String}, t ∈ removeTopics j ts ↔ t ∈ j ∧ t ∉ ts := by
  induction ts with
  | nil => intro j t; simp [removeTopics]
  | cons a ts ih =>
    intro j t
    show t ∈ removeTopics (removeTopic j a) ts ↔ _
    rw [ih, mem_removeTopic]
    simp [List.mem_cons]
    tauto

theorem netMemberP_congr {t : String} {p q : Prop} (h : p ↔ q) :
    ∀ es : List MEvent, netMemberP t p es ↔ netMemberP t q es := by
  intro es
  induction es generalizing p q with
  | nil => exact h
  | cons e es ih =>
    cases e with
    | subscribeCall ts => exact ih (by tauto)
    | unsubscribeCall ts => exact ih (by tauto)
    | connectionLost => exact ih h
    | connectSuccess => exact ih h

theorem mem_mqttRun {es : List MEvent} :
    ∀ {s : MQTTState} {t : String},
      t ∈ (mqttRun s es).subscriptions ↔ netMemberP t (t ∈ s.subscriptions) es := by
  induction es with
  | nil => intro s t; simp [mqttRun, netMemberP]
  | cons e es ih =>
    intro s t
    cases e with
    | subscribeCall ts =>
      show t ∈ (mqttRun _ es).subscriptions ↔ _
      rw [ih]
      exact netMemberP_congr mem_insertTopics es
    | unsubscribeCall ts =>
      show t ∈ (mqttRun _ es).subscriptions ↔ _
      rw [ih]
      exact netMemberP_congr mem_removeTopics es
    | connectionLost =>
      show t ∈ (mqttRun _ es).subscriptions ↔ _
      rw [ih]
      exact Iff.rfl
    | connectSuccess =>
      show t ∈ (mqttRun _ es).subscriptions ↔ _
      rw [ih]
      exact Iff.rfl

theorem mqttRun_subscriptions_congr {es : List MEvent} :
    ∀ {s₁ s₂ : MQTTState}, s₁.subscriptions = s₂.subscriptions →
      (mqttRun s₁ es).subscriptions = (mqttRun s₂ es).subscriptions := by
  induction es with
  | nil => intro s₁ s₂ h; exact h
  | cons e es ih =>
    intro s₁ s₂ h
    cases e <;> exact ih (by simp [mqttStep, h])

theorem mqttRun_filter_journalOps {es : List MEvent} :
    ∀ {s : MQTTState},
      (mqttRun s (es.filter MEvent.isJournalOp)).subscriptions =
        (mqttRun s es).subscriptions := by
  induction es with
  | nil => intro s; rfl
  | cons e es ih =>
    intro s
    cases e with
    | subscribeCall ts => simpa [List.filter, MEvent.isJournalOp, mqttRun] using ih
    | unsubscribeCall ts => simpa [List.filter, MEvent.isJournalOp, mqttRun] using ih
    | connectionLost =>
      simp only [List.filter, MEvent.isJournalOp]
      rw [ih]
      exact mqttRun_subscriptions_congr rfl
    | connectSuccess =>
      simp only [List.filter, MEvent.isJournalOp]
      rw [ih]
      exact mqttRun_subscriptions_congr rfl

/-- C1: for every sequence of SubscribeTopics / UnsubscribeTopics calls
interleaved arbitrarily with connection losses and reconnect successes, the
journal afterwards is exactly what the journal-mutating calls alone produce
(the net effect of additions minus removals): membership of a topic equals
its net desired membership, the whole journal equals the run of the
subsequence of journal operations, and a connection-loss notification never
changes any journal entry. -/
theorem C1_journal_net_effect (es : List MEvent) (t : String) :
    (t ∈ (mqttRun mqttInit es).subscriptions ↔ netMemberP t False es)
    ∧ (mqttRun mqttInit (es.filter MEvent.isJournalOp)).subscriptions =
        (mqttRun mqttInit es).subscriptions
    ∧ ∀ s : MQTTState, (mqttStep s .connectionLost).subscriptions = s.subscriptions := by
  refine ⟨?_, mqttRun_filter_journalOps, fun s => rfl⟩
  rw [mem_mqttRun]
  exact netMemberP_congr (by simp [mqttInit]) es

/-! ## Retry-then-reconnect policy (mqtt_client.go, Publish lines 349-377)

A paho token attempt has three observable outcomes in this code:
`WaitTimeout` returns false (timeout), `Error()` is non-nil (err), or the
attempt succeeds (ok).  An operation makes at most three attempts, so the
oracle supplies the potential outcome of each attempt in order. -/

/-- Outcome of one token attempt (`WaitTimeout` / `Error()`). -/
inductive Outcome where
  | ok
  | err
  | timeout
  deriving Repr, DecidableEq

/-- One entry of the observable trace of an operation. -/
inductive TraceStep where
  | reconnect
  | attempt
  deriving Repr, DecidableEq

/-- Result of a transport operation. -/
inductive OpResult where
  | reconnectFailed
  | opTimeout
  | opError
  | success
  deriving Repr, DecidableEq

/-- Shallow embedding of `PepeunitMQTTClient.Publish`:
line 350: if the client is nil or not connected, `forceReconnect` once and
return its error immediately on failure;
line 356: first attempt (`a1`);
line 357: on timeout, `forceReconnect` (result ignored) and retry (`a2`);
a timeout of the retry returns a timeout error;
line 364: if the current token (first attempt, or the timeout-retry token)
carries an error, `forceReconnect` again and make a final attempt; a timeout
or error of that final token is returned, otherwise nil.
The trace records every `forceReconnect` call and every publish attempt in
order. -/
def publishGo (connected0 frOK : Bool) (a1 a2 a3 : Outcome) :
    List TraceStep × OpResult :=
  let pre : List TraceStep := if connected0 then [] else [.reconnect]
  if connected0 = false ∧ frOK = false then (pre, .reconnectFailed)
  else
    match a1 with
    | .ok => (pre ++ [.attempt], .success)
    | .err =>
      match a2 with
      | .timeout => (pre ++ [.attempt, .reconnect, .attempt], .opTimeout)
      | .err => (pre ++ [.attempt, .reconnect, .attempt], .opError)
      | .ok => (pre ++ [.attempt, .reconnect, .attempt], .success)
    | .timeout =>
      match a2 with
      | .timeout => (pre ++ [.attempt, .reconnect, .attempt], .opTimeout)
      | .ok => (pre ++ [.attempt, .reconnect, .attempt], .success)
      | .err =>
        match a3 with
        | .timeout =>
            (pre ++ [.attempt, .reconnect, .attempt, .reconnect, .attempt], .opTimeout)
        | .err =>
            (pre ++ [.attempt, .reconnect, .attempt, .reconnect, .attempt], .opError)
        | .ok =>
            (pre ++ [.attempt, .reconnect, .attempt, .reconnect, .attempt], .success)

/-- C2 counterexample: a connected client whose first publish attempt times
out and whose retried attempt returns an error performs a SECOND
reconnect-and-retry cycle instead of surfacing the failure — three attempts
and two reconnects, and the operation can even succeed on the third attempt,
contradicting "retried exactly once more" / "returns a failure error to the
caller and is not retried further". -/
theorem C2_counterexample :
    (publishGo true true .timeout .err .ok).2 = .success
    ∧ (publishGo true true .timeout .err .ok).1.count .attempt = 3
    ∧ (publishGo true true .timeout .err .ok).1.count .reconnect = 2 := by
  decide

/-- C2 (amended): each operation performs at most two reconnect-and-retry
cycles — one triggered by a timeout of the first attempt and one more by a
token error — never more than three attempts; a first attempt that returns
an error (without timing out) gets exactly one reconnect-and-retry, and the
failure of the final allowed attempt is surfaced without further retries. -/
theorem C2_retry_policy (connected0 frOK : Bool) (a1 a2 a3 : Outcome)
    (h : connected0 = true ∨ frOK = true) :
    (publishGo connected0 frOK a1 a2 a3).1.count .attempt ≤ 3
    ∧ (publishGo connected0 frOK a1 a2 a3).1.count .reconnect
        ≤ (if connected0 then 2 else 3)
    ∧ (a1 = .ok → (publishGo connected0 frOK a1 a2 a3).2 = .success
        ∧ (publishGo connected0 frOK a1 a2 a3).1.count .attempt = 1)
    ∧ (a1 = .err → (publishGo connected0 frOK a1 a2 a3).1.count .attempt = 2
        ∧ ((publishGo connected0 frOK a1 a2 a3).2 = .success ↔ a2 = .ok))
    ∧ (a1 = .timeout → a2 = .timeout →
        (publishGo connected0 frOK a1 a2 a3).2 = .opTimeout
        ∧ (publishGo connected0 frOK a1 a2 a3).1.count .attempt = 2)
    ∧ (a1 = .timeout → a2 = .err →
        (publishGo connected0 frOK a1 a2 a3).1.count .attempt = 3
        ∧ ((publishGo connected0 frOK a1 a2 a3).2 = .success ↔ a3 = .ok)) := by
  cases connected0 <;> cases frOK <;> cases a1 <;> cases a2 <;> cases a3 <;>
    simp_all <;> decide

/-- C2 amended-claim witness at a concrete input. -/
theorem C2_retry_policy_witness :
    (publishGo true true .err .ok .ok).1.count .attempt ≤ 3
    ∧ (publishGo true true .err .ok .ok).2 = .success := by
  have h := C2_retry_policy true true .err .ok .ok (Or.inl rfl)
  exact ⟨h.1, ((h.2.2.2.1 rfl).2).mpr rfl⟩

/-- C8: a publish on a disconnected session performs exactly one
`forceReconnect` before the first send attempt (the trace starts with
exactly one reconnect step), and if that reconnect fails its error is
returned immediately with no attempt made. -/
theorem C8_reconnect_before_attempt (frOK : Bool) (a1 a2 a3 : Outcome) :
    ((publishGo false frOK a1 a2 a3).1.takeWhile (fun s => s = .reconnect)).length = 1
    ∧ (frOK = false →
        publishGo false frOK a1 a2 a3 = ([.reconnect], .reconnectFailed)) := by
  cases frOK <;> cases a1 <;> cases a2 <;> cases a3 <;> simp <;> decide

/-- C8 witness at a concrete input. -/
theorem C8_reconnect_before_attempt_witness :
    publishGo false false .ok .ok .ok = ([.reconnect], .reconnectFailed) :=
  (C8_reconnect_before_attempt false .ok .ok .ok).2 rfl

/-! ## Batch subscribe (mqtt_client.go, SubscribeTopics lines 266-307)

The loop body for one topic is the same timeout/error retry pattern as
`Publish`, so the oracle gives each topic its three potential attempt
outcomes.  The loop `return`s on the first per-topic failure. -/

/-- The three potential token outcomes for one topic's subscribe attempts. -/
structure TopicOutcomes where
  a1 : Outcome
  a2 : Outcome
  a3 : Outcome
  deriving Repr, DecidableEq

/-- Result of the loop body of `SubscribeTopics` for one topic
(lines 284-302): timeout of the first attempt leads to a reconnect and a
retried attempt whose timeout fails; a token error leads to a reconnect and
a final attempt whose timeout or error fails. -/
def topicSubResult (o : TopicOutcomes) : Option OpResult :=
  match o.a1 with
  | .ok => none
  | .err =>
    match o.a2 with
    | .timeout => some .opTimeout
    | .err => some .opError
    | .ok => none
  | .timeout =>
    match o.a2 with
    | .timeout => some .opTimeout
    | .ok => none
    | .err =>
      match o.a3 with
      | .timeout => some .opTimeout
      | .err => some .opError
      | .ok => none

/-- The subscribe loop: attempts topics in order and returns at the first
per-topic failure (the Go `return` statements inside the `for` loop).
Yields the list of topics that received at least one attempt and the
surfaced failure, if any. -/
def batchSubLoop (oc : String → TopicOutcomes) :
    List String → List String × Option OpResult
  | [] => ([], none)
  | t :: ts =>
    match topicSubResult (oc t) with
    | some f => ([t], some f)
    | none =>
      let r := batchSubLoop oc ts
      (t :: r.1, r.2)

/-- Shallow embedding of `SubscribeTopics`: an empty argument returns
immediately; otherwise the journal is updated first, then a disconnected
client forces one reconnect (whose failure is returned with no attempts),
then the per-topic loop runs.  Returns the new journal, the attempted
topics and the overall outcome. -/
def subscribeTopicsGo (connected0 frOK : Bool) (oc : String → TopicOutcomes)
    (journal : List String) (topics : List String) :
    List String × List String × Option OpResult :=
  if topics.isEmpty then (journal, [], none)
  else
    let journal2 := insertTopics journal topics
    if connected0 = false ∧ frOK = false then (journal2, [], some .reconnectFailed)
    else
      let r := batchSubLoop oc topics
      (journal2, r.1, r.2)

/-- C5 counterexample: in a two-topic batch where the first topic fails
(timeout, timeout of the retry), the second topic is never attempted — the
loop returns the failure instead of continuing, contradicting "a
subscription failure on one topic does not prevent the remaining topics of
the batch from being attempted". -/
theorem C5_counterexample :
    (subscribeTopicsGo true true
        (fun t => if t = "t1" then ⟨.timeout, .timeout, .ok⟩ else ⟨.ok, .ok, .ok⟩)
        [] ["t1", "t2"]) =
      (["t1", "t2"], ["t1"], some .opTimeout) := by
  decide

/-- Whether one topic's retry cycle fails. -/
def topicFails (oc : String → TopicOutcomes) (t : String) : Bool :=
  (topicSubResult (oc t)).isSome

theorem batchSubLoop_characterization (oc : String → TopicOutcomes) :
    ∀ topics : List String,
      (batchSubLoop oc topics).1 =
        topics.takeWhile (fun t => !(topicFails oc t))
          ++ (topics.dropWhile (fun t => !(topicFails oc t))).take 1
      ∧ ((batchSubLoop oc topics).2 = none ↔ ∀ t ∈ topics, topicFails oc t = false) := by
  intro topics
  induction topics with
  | nil => simp [batchSubLoop]
  | cons t ts ih =>
    by_cases h : topicFails oc t = true
    · have hres : ∃ f, topicSubResult (oc t) = some f := by
        simpa [topicFails, Option.isSome_iff_exists] using h
      obtain ⟨f, hf⟩ := hres
      constructor
      · simp [batchSubLoop, hf, List.takeWhile_cons, List.dropWhile_cons, h]
      · simp [batchSubLoop, hf]
        exact fun hcontra => by simp [topicFails, hf] at hcontra
    · have hres : topicSubResult (oc t) = none := by
        simp [topicFails] at h
        simpa [Option.isSome_iff_exists] using
          Option.not_isSome_iff_eq_none.mp (by simp [topicFails, h])
      constructor
      · simp [batchSubLoop, hres, List.takeWhile_cons, List.dropWhile_cons, h, ih.1]
      · simp [batchSubLoop, hres, ih.2]
        intro _
        simp [topicFails, hres]

/-- C5 (amended): the batch is attempted in order and aborts at the first
topic whose own retry cycle fails: every topic before the first failing one
is attempted, the first failing topic itself is attempted, the remaining
topics are not, and the call succeeds exactly when no topic of the batch
fails; the journal nevertheless already contains every topic of the batch. -/
theorem C5_batch_abort (connected0 frOK : Bool) (oc : String → TopicOutcomes)
    (journal : List String) (topics : List String)
    (hconn : connected0 = true ∨ frOK = true) (hne : topics ≠ []) :
    (subscribeTopicsGo connected0 frOK oc journal topics).1 =
        insertTopics journal topics
    ∧ (subscribeTopicsGo connected0 frOK oc journal topics).2.1 =
        topics.takeWhile (fun t => !(topicFails oc t))
          ++ (topics.dropWhile (fun t => !(topicFails oc t))).take 1
    ∧ ((subscribeTopicsGo connected0 frOK oc journal topics).2.2 = none ↔
        ∀ t ∈ topics, topicFails oc t = false) := by
  have hne2 : topics.isEmpty = false := by
    cases topics with
    | nil => exact absurd rfl hne
    | cons a l => rfl
  have hc : ¬ (connected0 = false ∧ frOK = false) := by
    rcases hconn with h | h <;> simp [h]
  refine ⟨?_, ?_, ?_⟩
  · simp [subscribeTopicsGo, hne2, hc]
  · simp [subscribeTopicsGo, hne2, hc]
    exact (batchSubLoop_characterization oc topics).1
  · simp [subscribeTopicsGo, hne2, hc]
    exact (batchSubLoop_characterization oc topics).2

/-- C5 amended-claim witness at a concrete input. -/
theorem C5_batch_abort_witness :
    (subscribeTopicsGo true true
        (fun t => if t = "t1" then ⟨.timeout, .timeout, .ok⟩ else ⟨.ok, .ok, .ok⟩)
        [] ["t1", "t2"]).2.1 =
      (["t1", "t2"].takeWhile (fun t => !(topicFails
          (fun t => if t = "t1" then ⟨.timeout, .timeout, .ok⟩ else ⟨.ok, .ok, .ok⟩) t)))
        ++ ((["t1", "t2"].dropWhile (fun t => !(topicFails
          (fun t => if t = "t1" then ⟨.timeout, .timeout, .ok⟩ else ⟨.ok, .ok, .ok⟩) t))).take 1) :=
  (C5_batch_abort true true _ [] ["t1", "t2"] (Or.inl rfl) (by decide)).2.1

/-! ## Journal replay after reconnection (mqtt_client.go, resubscribeAll
lines 421-447)

`resubscribeAll` is spawned by the OnConnectHandler after a successful
(re)connect.  It snapshots the journal under the read lock, bails out if the
snapshot is empty or the client is no longer connected, and then gives each
snapshot topic a single subscribe attempt with a per-topic timeout; a
timeout or error is logged and the loop continues — nothing is returned. -/

/-- The per-topic loop of `resubscribeAll`: every topic is attempted once;
a timeout or error only adds the topic to the logged-failure list. -/
def resubLoop (oc : String → Outcome) : List String → List String × List String
  | [] => ([], [])
  | t :: ts =>
    let r := resubLoop oc ts
    match oc t with
    | .ok => (t :: r.1, r.2)
    | .err => (t :: r.1, t :: r.2)
    | .timeout => (t :: r.1, t :: r.2)

/-- Shallow embedding of `resubscribeAll`: returns the attempted topics (in
snapshot order) and the topics whose single attempt failed and was logged.
The function has no error result at all — a replay failure is never
escalated. -/
def resubscribeAllGo (connected : Bool) (snapshot : List String)
    (oc : String → Outcome) : List String × List String :=
  if snapshot.isEmpty then ([], [])
  else if connected then resubLoop oc snapshot
  else ([], [])

theorem resubLoop_fst (oc : String → Outcome) :
    ∀ ts : List String, (resubLoop oc ts).1 = ts := by
  intro ts
  induction ts with
  | nil => rfl
  | cons t ts ih => cases h : oc t <;> simp [resubLoop, h, ih]

theorem resubscribeAllGo_fst (snapshot : List String) (oc : String → Outcome) :
    (resubscribeAllGo true snapshot oc).1 = snapshot := by
  cases snapshot with
  | nil => rfl
  | cons t ts => simpa [resubscribeAllGo] using resubLoop_fst oc (t :: ts)

/-- C6: after a reconnection succeeds, every topic present in the journal
snapshot receives exactly one resubscribe attempt and topics absent from it
(removed before the reconnect) receive none; which topics are attempted does
not depend on any per-topic failure (the loop continues past failures), and
the replay produces no error value at all. -/
theorem C6_replay_journal (snapshot : List String) (oc : String → Outcome)
    (hnd : snapshot.Nodup) :
    (∀ t ∈ snapshot, (resubscribeAllGo true snapshot oc).1.count t = 1)
    ∧ (∀ t, t ∉ snapshot → (resubscribeAllGo true snapshot oc).1.count t = 0)
    ∧ (∀ oc₂ : String → Outcome,
        (resubscribeAllGo true snapshot oc).1 = (resubscribeAllGo true snapshot oc₂).1) := by
  refine ⟨?_, ?_, ?_⟩
  · intro t ht
    rw [resubscribeAllGo_fst]
    exact List.count_eq_one_of_mem hnd ht
  · intro t ht
    rw [resubscribeAllGo_fst]
    exact List.count_eq_zero.mpr ht
  · intro oc₂
    rw [resubscribeAllGo_fst, resubscribeAllGo_fst]

/-- C6 witness at a concrete input. -/
theorem C6_replay_journal_witness :
    (resubscribeAllGo true ["a", "b"] (fun _ => Outcome.err)).1.count "a" = 1 :=
  (C6_replay_journal ["a", "b"] (fun _ => Outcome.err) (by decide)).1 "a" (by decide)

/-! ## Update orchestrator (client.go, handleUpdate lines 328-396 and
UpdateBinaryFromURL lines 398-426)

`handleUpdate` parses the payload as JSON, looks up the
`COMPILED_FIRMWARE_LINK` key, and only if the key is PRESENT runs
`PerformUpdate` (download env+schema, reload both, resubscribe topics); if
the key's value type-asserts to a non-empty string it then runs
`UpdateBinaryFromURL` (download the firmware and swap the executable) and
finally dispatches on the restart mode.  We model the handler as the list
of side-effecting collaborator actions it performs, in order. -/

/-- The four restart modes of enums.go. -/
inductive RestartMode where
  | restartPopen
  | restartExec
  | envSchemaOnly
  | noRestart
  deriving Repr, DecidableEq

/-- The value found under `COMPILED_FIRMWARE_LINK` in the parsed payload:
absent key, JSON null, a string, or some other JSON value. -/
inductive FieldVal where
  | absent
  | nullValue
  | strVal (s : String)
  | nonString
  deriving Repr, DecidableEq

/-- The inbound update payload: either it fails to parse as a JSON object,
or it parses and carries some field value for the firmware-link key. -/
inductive UpdatePayload where
  | unparsable
  | parsed (link : FieldVal)
  deriving Repr, DecidableEq

/-- The observable collaborator actions of `handleUpdate`. -/
inductive UpdAction where
  | customUpdate
  | performUpdate
  | updateBinary (url : String)
  | stopCycle
  | spawnNewProcess
  | exitProcess
  | execProcess
  deriving Repr, DecidableEq

/-- Go `linkStr, _ := linkVal.(string)`: the failed type assertion yields
the empty string. -/
def linkString : FieldVal → String
  | .strVal s => s
  | _ => ""

/-- Restart dispatch (the `switch c.restartMode` of handleUpdate):
popen stops the cycle, spawns a new process and exits; exec stops the cycle
and replaces the process image; the other two modes return. -/
def restartDispatch : RestartMode → List UpdAction
  | .restartPopen => [.stopCycle, .spawnNewProcess, .exitProcess]
  | .restartExec => [.stopCycle, .execProcess]
  | .envSchemaOnly => []
  | .noRestart => []

/-- Shallow embedding of `handleUpdate` as its action trace:
no REST client → log and return; a registered custom handler fully preempts
the built-in logic; unparsable payload → log and return; the
`COMPILED_FIRMWARE_LINK` key absent → nothing at all happens; key present →
`PerformUpdate` runs first (its failure aborts), then a non-empty string
link triggers `UpdateBinaryFromURL` (its failure aborts) followed by the
restart dispatch. -/
def handleUpdateGo (mode : RestartMode) (restOK hasCustom : Bool)
    (payload : UpdatePayload) (puOK binOK : Bool) : List UpdAction :=
  if restOK = false then []
  else if hasCustom then [.customUpdate]
  else
    match payload with
    | .unparsable => []
    | .parsed .absent => []
    | .parsed link =>
      if puOK = false then [.performUpdate]
      else
        let s := linkString link
        if s = "" then [.performUpdate]
        else if binOK = false then [.performUpdate, .updateBinary s]
        else [.performUpdate, .updateBinary s] ++ restartDispatch mode

/-- C3 counterexample: an update message whose payload parses but does not
contain the firmware-link key at all triggers nothing — in particular the
environment+schema pair is NOT re-downloaded, contradicting "the
orchestrator always re-downloads and reloads the environment+schema pair". -/
theorem C3_counterexample :
    handleUpdateGo .restartExec true false (.parsed .absent) true true = []
    ∧ UpdAction.performUpdate ∉
        handleUpdateGo .restartExec true false (.parsed .absent) true true := by
  decide

/-- C3 (amended): on an inbound update message (REST available, no custom
handler) whose payload parses and CONTAINS the firmware-link key, the
environment+schema reload-and-resubscribe step is always performed and is
the first action, hence strictly before any binary download or swap; when
the key's value is null (or any non-string, or the empty string) the binary
is never touched, under any RestartMode; when the key is absent, nothing at
all is done — neither the env+schema reload nor any binary action. -/
theorem C3_update_env_first (mode : RestartMode) (puOK binOK : Bool)
    (link : FieldVal) (h : link ≠ .absent) :
    (∃ rest, handleUpdateGo mode true false (.parsed link) puOK binOK =
        .performUpdate :: rest)
    ∧ (linkString link = "" →
        ∀ u, UpdAction.updateBinary u ∉
          handleUpdateGo mode true false (.parsed link) puOK binOK)
    ∧ handleUpdateGo mode true false (.parsed .absent) puOK binOK = [] := by
  refine ⟨?_, ?_, by cases puOK <;> cases binOK <;> rfl⟩
  · cases link with
    | absent => exact absurd rfl h
    | nullValue => cases puOK <;> exact ⟨_, rfl⟩
    | nonString => cases puOK <;> exact ⟨_, rfl⟩
    | strVal s =>
      cases puOK with
      | false => exact ⟨_, rfl⟩
      | true =>
        by_cases hs : s = ""
        · subst hs; exact ⟨_, rfl⟩
        · cases binOK with
          | false =>
            exact ⟨[.updateBinary s], by simp [handleUpdateGo, linkString, hs]⟩
          | true =>
            exact ⟨.updateBinary s :: restartDispatch mode,
              by simp [handleUpdateGo, linkString, hs]⟩
  · intro hempty u
    cases link with
    | absent => exact absurd rfl h
    | nullValue => cases puOK <;> simp [handleUpdateGo, linkString]
    | nonString => cases puOK <;> simp [handleUpdateGo, linkString]
    | strVal s =>
      have hs : s = "" := by simpa [linkString] using hempty
      subst hs
      cases puOK <;> simp [handleUpdateGo, linkString]

/-- C3 amended-claim witness at a concrete input. -/
theorem C3_update_env_first_witness :
    ∃ rest, handleUpdateGo .restartExec true false (.parsed .nullValue) true true =
      .performUpdate :: rest :=
  (C3_update_env_first .restartExec true true .nullValue (by decide)).1

/-- C4 counterexample: under RestartMode EnvSchemaOnly, an update payload
carrying a non-empty firmware link DOES cause the binary to be downloaded
and swapped (`UpdateBinaryFromURL` runs before the restart-mode switch);
only the restart itself is skipped.  This contradicts "never modifies the
executable binary". -/
theorem C4_counterexample :
    handleUpdateGo .envSchemaOnly true false
        (.parsed (.strVal "http://x/fw")) true true =
      [.performUpdate, .updateBinary "http://x/fw"] := by
  decide

/-- C4 (amended): under RestartMode EnvSchemaOnly, handling an update
command never stops the main cycle and never spawns, exits or replaces the
process; settings and schema are reloaded and topics resubscribed when the
payload carries the firmware-link key; but a non-empty firmware link still
causes the binary to be downloaded and swapped before the handler returns. -/
theorem C4_env_schema_only_frame (restOK hasCustom puOK binOK : Bool)
    (payload : UpdatePayload) :
    (∀ a ∈ handleUpdateGo .envSchemaOnly restOK hasCustom payload puOK binOK,
        a ≠ .stopCycle ∧ a ≠ .spawnNewProcess ∧ a ≠ .exitProcess ∧ a ≠ .execProcess)
    ∧ (∀ u : String, u ≠ "" →
        handleUpdateGo .envSchemaOnly true false (.parsed (.strVal u)) true true =
          [.performUpdate, .updateBinary u]) := by
  constructor
  · intro a ha
    cases restOK with
    | false => simp [handleUpdateGo] at ha
    | true =>
      cases hasCustom with
      | true =>
        simp [handleUpdateGo] at ha
        simp [ha]
      | false =>
        cases payload with
        | unparsable => simp [handleUpdateGo] at ha
        | parsed link =>
          cases link with
          | absent => simp [handleUpdateGo] at ha
          | nullValue =>
            cases puOK <;> simp [handleUpdateGo, linkString] at ha <;> simp [ha]
          | nonString =>
            cases puOK <;> simp [handleUpdateGo, linkString] at ha <;> simp [ha]
          | strVal s =>
            cases puOK with
            | false =>
              simp [handleUpdateGo] at ha
              simp [ha]
            | true =>
              by_cases hs : s = ""
              · subst hs
                simp [handleUpdateGo, linkString] at ha
                simp [ha]
              · cases binOK <;>
                  simp [handleUpdateGo, linkString, hs, restartDispatch] at ha <;>
                  rcases ha with h1 | h1 <;> simp [h1]
  · intro u hu
    simp [handleUpdateGo, linkString, hu, restartDispatch]

/-- C4 amended-claim witness at a concrete input. -/
theorem C4_env_schema_only_frame_witness :
    handleUpdateGo .envSchemaOnly true false (.parsed (.strVal "u")) true true =
      [.performUpdate, .updateBinary "u"] :=
  (C4_env_schema_only_frame true false true true (.parsed (.strVal "u"))).2
    "u" (by decide)

/-! ## Topic search (SchemaManager.FindTopicByUnitNode and helpers)

The schema holds four sections, each a mapping from logical topic name to a
list of fully-qualified topic strings; we model each section as an
association list (Go maps iterate in unspecified order; the association
list fixes one).  `getSectionsByScope` selects which sections are scanned;
`searchUUIDInTopicSection` compares the second '/'-separated path segment
of every topic URL; `searchTopicNameInSection` compares the full URL; both
return the empty string when nothing matches, and `FindTopicByUnitNode`
moves to the next section on an empty result, erring with
"topic not found" after the last one. -/

/-- Split a character list on a separator character, Go `strings.Split`
restricted to a one-character separator (never returns an empty list). -/
def splitOnCh (c : Char) : List Char → List (List Char)
  | [] => [[]]
  | x :: xs =>
    if x = c then [] :: splitOnCh c xs
    else
      match splitOnCh c xs with
      | [] => [[x]]
      | g :: gs => (x :: g) :: gs

/-- Go `extractUUIDFromTopic`: second '/'-separated segment, or "" when the
URL has fewer than two segments. -/
def extractUUIDFromTopic (topicURL : String) : String :=
  match splitOnCh '/' topicURL.data with
  | _ :: second :: _ => String.mk second
  | _ => ""

/-- One schema section: logical name → fully-qualified topic URLs. -/
abbrev TopicMap := List (String × List String)

/-- The two sections `FindTopicByUnitNode` can scan. -/
inductive SectionId where
  | inputTopic
  | outputTopic
  deriving Repr, DecidableEq

/-- The schema data relevant to topic search (input_topic / output_topic). -/
structure SchemaSearchData where
  inputTopic : TopicMap
  outputTopic : TopicMap

/-- Go `getSectionsByScope` (scope All scans input_topic then output_topic). -/
inductive SearchScope where
  | all
  | input
  | output
  deriving Repr, DecidableEq

/-- Go `SearchTopicType`. -/
inductive SearchTopicType where
  | unitNodeUUID
  | fullName
  deriving Repr, DecidableEq

def getSectionsByScope : SearchScope → List SectionId
  | .all => [.inputTopic, .outputTopic]
  | .input => [.inputTopic]
  | .output => [.outputTopic]

def sectionMap (sd : SchemaSearchData) : SectionId → TopicMap
  | .inputTopic => sd.inputTopic
  | .outputTopic => sd.outputTopic

/-- Go `searchUUIDInTopicSection`: first logical name one of whose URLs has
the searched value as its second path segment; "" when none (also the Go
behaviour for a missing section, which scans nothing). -/
def searchUUIDInTopicSection (tm : TopicMap) (uuid : String) : String :=
  match tm with
  | [] => ""
  | (name, urls) :: rest =>
    if urls.any (fun u => extractUUIDFromTopic u == uuid) then name
    else searchUUIDInTopicSection rest uuid

/-- Go `searchTopicNameInSection`: first logical name one of whose URLs is
exactly the searched string; "" when none. -/
def searchTopicNameInSection (tm : TopicMap) (topicName : String) : String :=
  match tm with
  | [] => ""
  | (name, urls) :: rest =>
    if urls.any (fun u => u == topicName) then name
    else searchTopicNameInSection rest topicName

/-- The section loop of `FindTopicByUnitNode`: a non-empty result is
returned, an empty one moves to the next section; after the last section
the not-found error is returned. -/
def findTopicLoop (sd : SchemaSearchData) (v : String) (ty : SearchTopicType) :
    List SectionId → Except String String
  | [] => .error "topic not found"
  | s :: rest =>
    let result :=
      match ty with
      | .unitNodeUUID => searchUUIDInTopicSection (sectionMap sd s) v
      | .fullName => searchTopicNameInSection (sectionMap sd s) v
    if result ≠ "" then .ok result else findTopicLoop sd v ty rest

/-- Shallow embedding of `SchemaManager.FindTopicByUnitNode`. -/
def FindTopicByUnitNode (sd : SchemaSearchData) (v : String)
    (ty : SearchTopicType) (scope : SearchScope) : Except String String :=
  findTopicLoop sd v ty (getSectionsByScope scope)

/-- The concrete schema of the claim: input topic "x" maps to
["broker/550e8400/pepeunit"], no output topics. -/
def exampleSchema : SchemaSearchData :=
  { inputTopic := [("x", ["broker/550e8400/pepeunit"])], outputTopic := [] }

/-- C7: scope Input scans only the input-topic section and scope Output only
the output-topic section (the result is unchanged by any modification of
the other section), scope All scans the input section first and falls back
to the output section; and on the claim's concrete schema, the unit-node-id
search for "550e8400" under scope Input returns "x" (second path segment
match) while the same search under scope Output returns the not-found
error. -/
theorem C7_find_topic_scopes (sd : SchemaSearchData) (v : String)
    (ty : SearchTopicType) (om im : TopicMap) :
    FindTopicByUnitNode sd v ty .input =
        FindTopicByUnitNode { sd with outputTopic := om } v ty .input
    ∧ FindTopicByUnitNode sd v ty .output =
        FindTopicByUnitNode { sd with inputTopic := im } v ty .output
    ∧ FindTopicByUnitNode sd v ty .all =
        (match FindTopicByUnitNode sd v ty .input with
          | .ok r => .ok r
          | .error _ => FindTopicByUnitNode sd v ty .output)
    ∧ FindTopicByUnitNode exampleSchema "550e8400" .unitNodeUUID .input = .ok "x"
    ∧ FindTopicByUnitNode exampleSchema "550e8400" .unitNodeUUID .output =
        .error "topic not found" := by
  refine ⟨?_, ?_, ?_, by rfl, by rfl⟩
  · simp [FindTopicByUnitNode, findTopicLoop, getSectionsByScope, sectionMap]
  · simp [FindTopicByUnitNode, findTopicLoop, getSectionsByScope, sectionMap]
  · simp only [FindTopicByUnitNode, findTopicLoop, getSectionsByScope, sectionMap]
    cases ty <;> dsimp only <;> split <;> simp_all [findTopicLoop]

/-! ## Serialization of connect handshakes (mqtt_client.go, Connect lines
195-199 and forceReconnect lines 410-419)

`Connect` runs `connectMu.Lock(); defer connectMu.Unlock(); connectLocked()`
and `forceReconnect` runs `connectMu.Lock(); defer connectMu.Unlock();
(teardown); connectLocked()`: every execution of the network handshake
(`connectLocked`) happens between acquiring and releasing the one dedicated
mutex `connectMu`.  We model each caller as a thread that acquires the
mutex, performs its handshake, and releases; mutex semantics allow an
acquire only when no thread holds it. -/

/-- Phase of one caller of Connect / forceReconnect. -/
inductive ThreadPhase where
  | start
  | inHandshake
  | finished
  deriving Repr, DecidableEq

/-- Global state: who holds `connectMu`, and each thread's phase. -/
structure LockState (n : Nat) where
  holder : Option (Fin n)
  phase : Fin n → ThreadPhase

/-- All callers about to enter Connect / forceReconnect; the mutex is free. -/
def lockInit (n : Nat) : LockState n :=
  { holder := none, phase := fun _ => .start }

/-- Interleaving semantics: a thread acquires the free mutex and enters its
handshake (`connectLocked`), or a thread holding the mutex finishes its
handshake and releases (the deferred `Unlock`). -/
inductive LockStep {n : Nat} : LockState n → LockState n → Prop
  | acquire (s : LockState n) (i : Fin n)
      (hp : s.phase i = .start) (hh : s.holder = none) :
      LockStep s { holder := some i, phase := Function.update s.phase i .inHandshake }
  | release (s : LockState n) (i : Fin n)
      (hp : s.phase i = .inHandshake) (hh : s.holder = some i) :
      LockStep s { holder := none, phase := Function.update s.phase i .finished }

/-- States reachable from the initial state by any interleaving. -/
def LockReachable {n : Nat} (s : LockState n) : Prop :=
  Relation.ReflTransGen LockStep (lockInit n) s

/-- The counter of in-flight connect handshakes. -/
def handshakeCount {n : Nat} (s : LockState n) : Nat :=
  (Finset.univ.filter (fun i => s.phase i = ThreadPhase.inHandshake)).card

theorem lock_invariant {n : Nat} {s : LockState n} (h : LockReachable s) :
    ∀ i : Fin n, s.phase i = .inHandshake → s.holder = some i := by
  induction h with
  | refl => intro i hi; exact absurd hi (by simp [lockInit])
  | tail _ hstep ih =>
    cases hstep with
    | acquire j hp hh =>
      intro i hi
      by_cases hij : i = j
      · subst hij; rfl
      · simp only [Function.update_apply, if_neg hij] at hi
        exact absurd (ih i hi) (by simp [hh])
    | release j hp hh =>
      intro i hi
      by_cases hij : i = j
      · subst hij
        simp only [Function.update_apply, if_pos rfl] at hi
        exact absurd hi (by simp)
      · simp only [Function.update_apply, if_neg hij] at hi
        have hsome := ih i hi
        rw [hh] at hsome
        exact absurd (Option.some_injective _ hsome) fun he => hij he.symm

/-- C9: in every state reachable by interleaving any number of Connect /
ForceReconnect callers, the number of threads currently inside the network
handshake never exceeds 1 — all handshakes are serialized under the single
`connectMu` lock. -/
theorem C9_handshake_serialized {n : Nat} {s : LockState n}
    (h : LockReachable s) : handshakeCount s ≤ 1 := by
  have hinv := lock_invariant h
  apply Finset.card_le_one.mpr
  intro a ha b hb
  simp only [Finset.mem_filter] at ha hb
  have h1 := hinv a ha.2
  have h2 := hinv b hb.2
  rw [h1] at h2
  exact Option.some_injective _ h2

/-- C9 witness: a state with one thread mid-handshake, reached by one
acquire step from the two-caller initial state. -/
theorem C9_handshake_serialized_witness :
    handshakeCount
      { holder := some (0 : Fin 2),
        phase := Function.update (lockInit 2).phase (0 : Fin 2) ThreadPhase.inHandshake } ≤ 1 :=
  C9_handshake_serialized
    (Relation.ReflTransGen.single (LockStep.acquire (lockInit 2) (0 : Fin 2) rfl rfl))

/-! ## AES-GCM helper (aesGcmCipher.encode / decode)

`encode` base64-decodes the key, rejects lengths other than 16/24/32,
seals the plaintext under a random 12-byte nonce and returns
`base64(nonce) + "." + base64(ciphertext)`; `decode` splits on ".",
base64-decodes key, nonce and ciphertext and opens.  We embed Go's
`encoding/base64` StdEncoding concretely (the alphabet, padding, and the
non-strict treatment of trailing bits match Go's default decoder) and model
the AES-GCM primitive (`gcm.Seal` / `gcm.Open`, which live in Go's standard
library, not in this repository) as seal/open parameters; `refGcmSeal` /
`refGcmOpen` below instantiate them with the observable behaviour of
`crypto/cipher` GCM (ciphertext = plaintext plus a 16-byte tag; open fails
when the ciphertext is shorter than the tag or the tag does not match). -/

/-- The base64 standard alphabet of RFC 4648, used by Go StdEncoding. -/
def b64Alphabet : List Char :=
  ['A', 'B', 'C', 'D', 'E', 'F', 'G', 'H', 'I', 'J', 'K', 'L', 'M',
   'N', 'O', 'P', 'Q', 'R', 'S', 'T', 'U', 'V', 'W', 'X', 'Y', 'Z',
   'a', 'b', 'c', 'd', 'e', 'f', 'g', 'h', 'i', 'j', 'k', 'l', 'm',
   'n', 'o', 'p', 'q', 'r', 's', 't', 'u', 'v', 'w', 'x', 'y', 'z',
   '0', '1', '2', '3', '4', '5', '6', '7', '8', '9', '+', '/']

/-- Alphabet character for a 6-bit value. -/
def b64Char (n : Nat) : Char := b64Alphabet.getD (n % 64) 'A'

/-- Position of a character in the alphabet, none for a foreign character. -/
def b64CharIndex (c : Char) : Option Nat :=
  let i := b64Alphabet.findIdx (fun x => x == c)
  if i < 64 then some i else none

/-- Go StdEncoding encoder: 3 bytes → 4 characters, a 1- or 2-byte tail is
padded with "==" or "=". -/
def b64EncodeBytes : List Nat → List Char
  | [] => []
  | [a] => [b64Char (a / 4), b64Char (a % 4 * 16), '=', '=']
  | [a, b] => [b64Char (a / 4), b64Char (a % 4 * 16 + b / 16), b64Char (b % 16 * 4), '=']
  | a :: b :: c :: rest =>
    b64Char (a / 4) :: b64Char (a % 4 * 16 + b / 16) ::
      b64Char (b % 16 * 4 + c / 64) :: b64Char (c % 64) :: b64EncodeBytes rest

/-- Go StdEncoding decoder: the input must be a sequence of 4-character
quanta, padding may only occur in the final quantum, foreign characters are
rejected; like Go's default (non-Strict) decoder the trailing bits of a
padded quantum are not required to be zero. -/
def b64DecodeChars : List Char → Option (List Nat)
  | [] => some []
  | c1 :: c2 :: c3 :: c4 :: rest =>
    match b64CharIndex c1, b64CharIndex c2 with
    | some n1, some n2 =>
      if c3 = '=' then
        if c4 = '=' ∧ rest = [] then some [n1 * 4 + n2 / 16] else none
      else
        match b64CharIndex c3 with
        | some n3 =>
          if c4 = '=' then
            if rest = [] then some [n1 * 4 + n2 / 16, n2 % 16 * 16 + n3 / 4]
            else none
          else
            match b64CharIndex c4 with
            | some n4 =>
              match b64DecodeChars rest with
              | some bs =>
                some ((n1 * 4 + n2 / 16) :: (n2 % 16 * 16 + n3 / 4) ::
                  (n3 % 4 * 64 + n4) :: bs)
              | none => none
            | none => none
        | none => none
    | _, _ => none
  | _ => none

theorem b64CharIndex_b64Char_bounded :
    ∀ n < 64, b64CharIndex (b64Char n) = some n := by decide

theorem b64Char_ne_pad_bounded : ∀ n < 64, b64Char n ≠ '=' := by decide

theorem b64Char_ne_dot_bounded : ∀ n < 64, b64Char n ≠ '.' := by decide

theorem b64Char_ne_dot (n : Nat) : b64Char n ≠ '.' := by
  have h : b64Char n = b64Char (n % 64) := by
    simp only [b64Char, Nat.mod_mod_of_dvd n (dvd_refl 64)]
  rw [h]
  exact b64Char_ne_dot_bounded (n % 64) (Nat.mod_lt _ (by omega))

theorem dot_not_mem_b64Encode : ∀ bs : List Nat, '.' ∉ b64EncodeBytes bs
  | [] => by simp [b64EncodeBytes]
  | [a] => by
    simp [b64EncodeBytes]
    exact ⟨fun h => b64Char_ne_dot _ h.symm, fun h => b64Char_ne_dot _ h.symm⟩
  | [a, b] => by
    simp [b64EncodeBytes]
    exact ⟨fun h => b64Char_ne_dot _ h.symm, fun h => b64Char_ne_dot _ h.symm,
      fun h => b64Char_ne_dot _ h.symm⟩
  | a :: b :: c :: rest => by
    have ih := dot_not_mem_b64Encode rest
    show '.' ∉ b64Char (a / 4) :: b64Char (a % 4 * 16 + b / 16) ::
      b64Char (b % 16 * 4 + c / 64) :: b64Char (c % 64) :: b64EncodeBytes rest
    simp only [List.mem_cons, not_or]
    exact ⟨fun h => b64Char_ne_dot _ h.symm, fun h => b64Char_ne_dot _ h.symm,
      fun h => b64Char_ne_dot _ h.symm, fun h => b64Char_ne_dot _ h.symm, ih⟩

theorem b64_roundtrip : ∀ bs : List Nat, (∀ x ∈ bs, x < 256) →
    b64DecodeChars (b64EncodeBytes bs) = some bs
  | [] => fun _ => rfl
  | [a] => fun h => by
    have ha : a < 256 := h a (by simp)
    have h1 : a / 4 < 64 := by omega
    have h2 : a % 4 * 16 < 64 := by omega
    show b64DecodeChars [b64Char (a / 4), b64Char (a % 4 * 16), '=', '='] = some [a]
    simp only [b64DecodeChars, b64CharIndex_b64Char_bounded _ h1,
      b64CharIndex_b64Char_bounded _ h2]
    simp
    omega
  | [a, b] => fun h => by
    have ha : a < 256 := h a (by simp)
    have hb : b < 256 := h b (by simp)
    have h1 : a / 4 < 64 := by omega
    have h2 : a % 4 * 16 + b / 16 < 64 := by omega
    have h3 : b % 16 * 4 < 64 := by omega
    show b64DecodeChars
        [b64Char (a / 4), b64Char (a % 4 * 16 + b / 16), b64Char (b % 16 * 4), '='] =
      some [a, b]
    simp only [b64DecodeChars, b64CharIndex_b64Char_bounded _ h1,
      b64CharIndex_b64Char_bounded _ h2,
      if_neg (b64Char_ne_pad_bounded _ h3),
      b64CharIndex_b64Char_bounded _ h3]
    simp
    constructor <;> omega
  | a :: b :: c :: rest => fun h => by
    have ha : a < 256 := h a (by simp)
    have hb : b < 256 := h b (by simp)
    have hc : c < 256 := h c (by simp)
    have ih := b64_roundtrip rest (fun x hx => h x (by simp [hx]))
    have h1 : a / 4 < 64 := by omega
    have h2 : a % 4 * 16 + b / 16 < 64 := by omega
    have h3 : b % 16 * 4 + c / 64 < 64 := by omega
    have h4 : c % 64 < 64 := by omega
    show b64DecodeChars
        (b64Char (a / 4) :: b64Char (a % 4 * 16 + b / 16) ::
          b64Char (b % 16 * 4 + c / 64) :: b64Char (c % 64) :: b64EncodeBytes rest) =
      some (a :: b :: c :: rest)
    simp only [b64DecodeChars, b64CharIndex_b64Char_bounded _ h1,
      b64CharIndex_b64Char_bounded _ h2,
      if_neg (b64Char_ne_pad_bounded _ h3),
      b64CharIndex_b64Char_bounded _ h3,
      if_neg (b64Char_ne_pad_bounded _ h4),
      b64CharIndex_b64Char_bounded _ h4, ih]
    simp
    refine ⟨by omega, by omega, by omega⟩

theorem splitOnCh_no_sep {c : Char} : ∀ {a : List Char}, c ∉ a → splitOnCh c a = [a]
  | [], _ => rfl
  | x :: xs, h => by
    have hx : ¬ x = c := fun he => h (by subst he; exact List.mem_cons_self _ _)
    have ih := splitOnCh_no_sep (a := xs) (fun hm => h (List.mem_cons_of_mem _ hm))
    simp only [splitOnCh, if_neg hx, ih]

theorem splitOnCh_append {c : Char} :
    ∀ {a : List Char} (b : List Char), c ∉ a →
      splitOnCh c (a ++ c :: b) = a :: splitOnCh c b
  | [], b, _ => by simp [splitOnCh]
  | x :: xs, b, h => by
    have hx : ¬ x = c := fun he => h (by subst he; exact List.mem_cons_self _ _)
    have ih := splitOnCh_append (a := xs) b (fun hm => h (List.mem_cons_of_mem _ hm))
    simp only [List.cons_append, splitOnCh, if_neg hx, List.append_eq, ih]

/-- Shallow embedding of `aesGcmCipher.encode`: base64-decode the key,
reject wrong lengths, seal under the nonce, emit
`base64(nonce) + "." + base64(ciphertext)`.  The random nonce and the AES-GCM
seal primitive (Go standard library) are parameters. -/
def aesGcmEncode (sealFn : List Nat → List Nat → List Nat → List Nat)
    (nonce : List Nat) (data : List Nat) (keyB64 : List Char) :
    Except String (List Char) :=
  match b64DecodeChars keyB64 with
  | none => .error "illegal base64 data"
  | some key =>
    if key.length = 16 ∨ key.length = 24 ∨ key.length = 32 then
      .ok (b64EncodeBytes nonce ++ '.' :: b64EncodeBytes (sealFn key nonce data))
    else .error "invalid AES key length"

/-- Shallow embedding of `aesGcmCipher.decode`: split on ".", requiring
exactly two parts, base64-decode key (with the same length check), nonce and
ciphertext, then open; a failed open is an error.  The AES-GCM open
primitive is a parameter. -/
def aesGcmDecode (openFn : List Nat → List Nat → List Nat → Option (List Nat))
    (encoded : List Char) (keyB64 : List Char) : Except String (List Nat) :=
  match splitOnCh '.' encoded with
  | [p1, p2] =>
    match b64DecodeChars keyB64 with
    | none => .error "illegal base64 data"
    | some key =>
      if key.length = 16 ∨ key.length = 24 ∨ key.length = 32 then
        match b64DecodeChars p1 with
        | none => .error "illegal base64 data"
        | some nonce =>
          match b64DecodeChars p2 with
          | none => .error "illegal base64 data"
          | some ct =>
            match openFn key nonce ct with
            | some plain => .ok plain
            | none => .error "cipher: message authentication failed"
      else .error "invalid AES key length"
  | _ => .error "invalid encoded data format"

/-- Observable behaviour of Go `crypto/cipher` GCM used as a stand-in for
the real AES-GCM (whose key-dependent tag lives in the Go standard library,
outside this repository): sealing appends a 16-byte tag. -/
def refGcmSeal (key nonce pt : List Nat) : List Nat :=
  pt ++ List.replicate 16 0

/-- Stand-in for `gcm.Open`: fails when the nonce is not 12 bytes, the
ciphertext is shorter than the 16-byte tag, or the tag does not match —
exactly the observable failure modes of Go GCM open. -/
def refGcmOpen (key nonce ct : List Nat) : Option (List Nat) :=
  if nonce.length = 12 ∧ 16 ≤ ct.length ∧
      ct.drop (ct.length - 16) = List.replicate 16 0 then
    some (ct.take (ct.length - 16))
  else none

/-- A 16-byte all-zero key in base64 ("AAAAAAAAAAAAAAAAAAAAAA=="). -/
def exampleKeyB64 : List Char := List.replicate 22 'A' ++ ['=', '=']

/-- A well-formed encoded input "AAAAAAAAAAAAAAAA.AAAA": a 12-byte base64
nonce, a dot, and a 3-byte base64 ciphertext (shorter than the GCM tag). -/
def exampleEncoded : List Char :=
  List.replicate 16 'A' ++ '.' :: List.replicate 4 'A'

/-- C10 counterexample: decode of a well-formed input (the key decodes to 16
bytes, the input splits into exactly two base64 parts that both decode) can
still return an error — authenticated decryption fails because the
ciphertext is shorter than the GCM tag.  So "both operations return an
error ... exactly when the key fails to base64-decode or has any other
length, or the input does not split into two base64 parts" is false. -/
theorem C10_counterexample :
    b64DecodeChars exampleKeyB64 = some (List.replicate 16 0)
    ∧ splitOnCh '.' exampleEncoded =
        [List.replicate 16 'A', List.replicate 4 'A']
    ∧ b64DecodeChars (List.replicate 16 'A') = some (List.replicate 12 0)
    ∧ b64DecodeChars (List.replicate 4 'A') = some (List.replicate 3 0)
    ∧ aesGcmDecode refGcmOpen exampleEncoded exampleKeyB64 =
        .error "cipher: message authentication failed" := by
  refine ⟨by rfl, by rfl, by rfl, by rfl, by rfl⟩

/-- C10 (amended): for every plaintext and every key whose base64 decoding
has length 16, 24 or 32, decode inverts encode (for any 12-byte nonce and
any seal/open pair satisfying the GCM open-of-seal identity); encode returns
an error exactly when the key fails to base64-decode or has another length;
decode returns an error when the input does not split into exactly two
"."-separated parts, when the key is invalid, and ALSO when authenticated
decryption fails (e.g. a ciphertext shorter than the 16-byte tag or a
non-matching tag). -/
theorem C10_aes_roundtrip
    (sealFn : List Nat → List Nat → List Nat → List Nat)
    (openFn : List Nat → List Nat → List Nat → Option (List Nat))
    (keyB64 : List Char) (key nonce data : List Nat)
    (hkey : b64DecodeChars keyB64 = some key)
    (hlen : key.length = 16 ∨ key.length = 24 ∨ key.length = 32)
    (hnb : ∀ x ∈ nonce, x < 256)
    (hsb : ∀ x ∈ sealFn key nonce data, x < 256)
    (hcorrect : openFn key nonce (sealFn key nonce data) = some data) :
    (∃ enc, aesGcmEncode sealFn nonce data keyB64 = .ok enc
      ∧ aesGcmDecode openFn enc keyB64 = .ok data)
    ∧ (∀ k2, b64DecodeChars k2 = none →
        aesGcmEncode sealFn nonce data k2 = .error "illegal base64 data")
    ∧ (∀ k2 key2, b64DecodeChars k2 = some key2 →
        ¬(key2.length = 16 ∨ key2.length = 24 ∨ key2.length = 32) →
        aesGcmEncode sealFn nonce data k2 = .error "invalid AES key length")
    ∧ (∀ enc2, (splitOnCh '.' enc2).length ≠ 2 →
        aesGcmDecode openFn enc2 keyB64 = .error "invalid encoded data format")
    ∧ (∀ enc2 p1 p2 nonce2 ct2, splitOnCh '.' enc2 = [p1, p2] →
        b64DecodeChars p1 = some nonce2 → b64DecodeChars p2 = some ct2 →
        openFn key nonce2 ct2 = none →
        aesGcmDecode openFn enc2 keyB64 =
          .error "cipher: message authentication failed") := by
  refine ⟨?_, ?_, ?_, ?_, ?_⟩
  · refine ⟨b64EncodeBytes nonce ++ '.' :: b64EncodeBytes (sealFn key nonce data),
      ?_, ?_⟩
    · simp only [aesGcmEncode, hkey]
      rw [if_pos hlen]
    · have hsplit : splitOnCh '.'
          (b64EncodeBytes nonce ++ '.' :: b64EncodeBytes (sealFn key nonce data)) =
          [b64EncodeBytes nonce, b64EncodeBytes (sealFn key nonce data)] := by
        rw [splitOnCh_append _ (dot_not_mem_b64Encode nonce),
          splitOnCh_no_sep (dot_not_mem_b64Encode (sealFn key nonce data))]
      simp only [aesGcmDecode, hsplit, hkey, b64_roundtrip nonce hnb,
        b64_roundtrip (sealFn key nonce data) hsb, hcorrect]
      rw [if_pos hlen]
  · intro k2 hk2
    simp only [aesGcmEncode, hk2]
  · intro k2 key2 hk2 hbad
    simp only [aesGcmEncode, hk2]
    rw [if_neg hbad]
  · intro enc2 hsp
    unfold aesGcmDecode
    cases hs : splitOnCh '.' enc2 with
    | nil => rfl
    | cons p rest =>
      cases rest with
      | nil => rfl
      | cons p2 rest2 =>
        cases rest2 with
        | nil => exact absurd (by rw [hs]; simp) hsp
        | cons p3 rest3 => rfl
  · intro enc2 p1 p2 nonce2 ct2 hsp hp1 hp2 hop
    simp only [aesGcmDecode, hsp, hkey, hp1, hp2, hop]
    rw [if_pos hlen]

/-- C10 amended-claim witness: the reference GCM, the all-zero 16-byte key,
a 12-byte zero nonce and plaintext [1, 2, 3]. -/
theorem C10_aes_roundtrip_witness :
    ∃ enc, aesGcmEncode refGcmSeal (List.replicate 12 0) [1, 2, 3] exampleKeyB64 =
        .ok enc
      ∧ aesGcmDecode refGcmOpen enc exampleKeyB64 = .ok [1, 2, 3] :=
  (C10_aes_roundtrip refGcmSeal refGcmOpen exampleKeyB64
    (List.replicate 16 0) (List.replicate 12 0) [1, 2, 3]
    (by rfl) (by decide) (by decide) (by decide) (by rfl)).1

end Pepeunit
